import Mathlib

/-!
Verification of the `rust_graphs` library (src/src/lib.rs): a shallow
embedding of its two components, the owned node tree (`directed_graph::Node`)
and the directed labeled multigraph (`graph::Graph`), together with proofs of
the specified properties.

Modelling conventions:
* Rust's `Vec<T>` used as a stack (`push`/`pop` at the back) is modelled as a
  `List` whose last element is the top of the stack, and `VecDeque` is a
  `List` whose head is the front; `pop()`/`pop_back()` take `List.getLast`,
  `push`/`push_front` append at the matching end, exactly as in the source.
* `HashMap<K, V>` is modelled extensionally as `K → Option V` (the claims
  under scrutiny never depend on hash iteration order).
* A Rust `Result<(), &'static str>` on `&mut self` becomes
  `Except String (Graph ..)`: `ok` carries the updated state, `error` the
  exact message string; the `.unwrap()` panic in `get_adjacent` is modelled
  by `Option` with `none` for the panic.
-/

namespace RustGraphs

/-! ### The node tree (`directed_graph::Node`) -/

inductive Node (T : Type) where
  | mk (value : T) (children : List (Node T))

def Node.value {T : Type} : Node T → T
  | .mk v _ => v

def Node.children {T : Type} : Node T → List (Node T)
  | .mk _ cs => cs

/-- `Node::new(value)`: a childless node. -/
def Node.new {T : Type} (value : T) : Node T :=
  .mk value []

/-- `Node::join(&mut self, node)`: push `node` as last child, return the
resulting node (the Rust method mutates and returns a clone; in pure form the
returned value is the updated node). -/
def Node.join {T : Type} (n : Node T) (node : Node T) : Node T :=
  .mk n.value (n.children ++ [node])

mutual

def Node.size {T : Type} : Node T → Nat
  | .mk _ cs => 1 + sizeList cs

def sizeList {T : Type} : List (Node T) → Nat
  | [] => 0
  | c :: cs => Node.size c + sizeList cs

end

theorem Node.size_eq {T : Type} (n : Node T) : n.size = 1 + sizeList n.children := by
  cases n with
  | mk v cs => simp [Node.size, Node.children]

theorem sizeList_append {T : Type} (l₁ l₂ : List (Node T)) :
    sizeList (l₁ ++ l₂) = sizeList l₁ + sizeList l₂ := by
  induction l₁ with
  | nil => simp [sizeList]
  | cons c cs ih => simp [sizeList, ih]; omega

theorem sizeList_reverse {T : Type} (l : List (Node T)) :
    sizeList l.reverse = sizeList l := by
  induction l with
  | nil => rfl
  | cons c cs ih => simp [sizeList, List.reverse_cons, sizeList_append, ih]; omega

theorem sizeList_dropLast {T : Type} (l : List (Node T)) (h : l ≠ []) :
    sizeList l = sizeList l.dropLast + (l.getLast h).size := by
  conv_lhs => rw [← List.dropLast_append_getLast h]
  simp [sizeList_append, sizeList]

theorem sizeList_pop_push {T : Type} (q : List (Node T)) (h : q ≠ []) :
    sizeList (q.dropLast ++ (q.getLast h).children) < sizeList q := by
  rw [sizeList_append, sizeList_dropLast q h]
  have := Node.size_eq (q.getLast h)
  omega

theorem sizeList_pop_push_front {T : Type} (q : List (Node T)) (h : q ≠ []) :
    sizeList ((q.getLast h).children.reverse ++ q.dropLast) < sizeList q := by
  rw [sizeList_append, sizeList_reverse, sizeList_dropLast q h]
  have := Node.size_eq (q.getLast h)
  omega

/-- The loop of `Node::depth_first_vec`: a `Vec` stack (top at the back of the
list); pop the top, record its value, push the children in stored order. -/
def dfsLoop {T : Type} : List (Node T) → List T
  | [] => []
  | h :: t =>
    let current := (h :: t).getLast (by simp)
    current.value :: dfsLoop ((h :: t).dropLast ++ current.children)
termination_by q => sizeList q
decreasing_by
  exact sizeList_pop_push _ (by simp)

/-- `Node::depth_first_vec(&self)`. -/
def Node.depth_first_vec {T : Type} (n : Node T) : List T :=
  dfsLoop [n]

/-- The loop of `Node::breadth_first_vec`: a `VecDeque` (front at the head of
the list); `pop_back` the current node, record its value, `push_front` the
children in stored order. -/
def bfsLoop {T : Type} : List (Node T) → List T
  | [] => []
  | h :: t =>
    let current := (h :: t).getLast (by simp)
    current.value :: bfsLoop (current.children.reverse ++ (h :: t).dropLast)
termination_by q => sizeList q
decreasing_by
  exact sizeList_pop_push_front _ (by simp)

/-- `Node::breadth_first_vec(&self)`. -/
def Node.breadth_first_vec {T : Type} (n : Node T) : List T :=
  bfsLoop [n]

/-- The loop of `Node::contains`: same `Vec` stack mechanics as
`depth_first_vec`, returning early on the first value match. -/
def containsLoop {T : Type} [DecidableEq T] (value : T) : List (Node T) → Bool
  | [] => false
  | h :: t =>
    let current := (h :: t).getLast (by simp)
    if current.value = value then true
    else containsLoop value ((h :: t).dropLast ++ current.children)
termination_by q => sizeList q
decreasing_by
  exact sizeList_pop_push _ (by simp)

/-- `Node::contains(&self, value)`. -/
def Node.contains {T : Type} [DecidableEq T] (n : Node T) (value : T) : Bool :=
  containsLoop value [n]

/-! ### The multigraph (`graph::Graph`) -/

/-- `Graph<Nid, N, E>`: node payloads and adjacency sequences, keyed by node
identifier (hash maps modelled extensionally). -/
structure Graph (Nid N E : Type) where
  nodes : Nid → Option N
  adjacent : Nid → Option (List (Nid × E))

/-- `Graph::new()`. -/
def Graph.new {Nid N E : Type} : Graph Nid N E :=
  { nodes := fun _ => none, adjacent := fun _ => none }

/-- `Graph::insert_node`: insert or overwrite, returning the previous payload. -/
def Graph.insert_node {Nid N E : Type} [DecidableEq Nid]
    (g : Graph Nid N E) (node_id : Nid) (node : N) : Option N × Graph Nid N E :=
  (g.nodes node_id,
   { g with nodes := fun k => if k = node_id then some node else g.nodes k })

/-- `Graph::add_edge`: append `(to, edge)` to `from`'s adjacency sequence,
creating it (`entry(..).or_default()`) if absent. -/
def Graph.add_edge {Nid N E : Type} [DecidableEq Nid]
    (g : Graph Nid N E) (fromId toId : Nid) (edge : E) : Graph Nid N E :=
  { g with adjacent := fun k =>
      if k = fromId then some (((g.adjacent fromId).getD []) ++ [(toId, edge)])
      else g.adjacent k }

/-- `Graph::remove_node`: remove only the node-payload entry, returning it. -/
def Graph.remove_node {Nid N E : Type} [DecidableEq Nid]
    (g : Graph Nid N E) (node_id : Nid) : Option N × Graph Nid N E :=
  (g.nodes node_id,
   { g with nodes := fun k => if k = node_id then none else g.nodes k })

/-- `Graph::remove_edges`: if `from` has an adjacency sequence, retain only
the entries whose destination differs from `to`; otherwise fail. -/
def Graph.remove_edges {Nid N E : Type} [DecidableEq Nid]
    (g : Graph Nid N E) (fromId : Nid) (toId : Nid) : Except String (Graph Nid N E) :=
  if (g.adjacent fromId).isSome then
    .ok { g with adjacent := fun k =>
      (if k = fromId then
        some (((g.adjacent fromId).getD []).filter fun p => decide (p.1 ≠ toId))
      else g.adjacent k) }
  else .error "Node does not have any edges!"

/-- `Graph::get_node`. -/
def Graph.get_node {Nid N E : Type} (g : Graph Nid N E) (node_id : Nid) : Option N :=
  g.nodes node_id

/-- `Graph::get_edge`: first adjacency entry of `from` with destination `to`. -/
def Graph.get_edge {Nid N E : Type} [DecidableEq Nid]
    (g : Graph Nid N E) (fromId toId : Nid) : Option E :=
  match g.adjacent fromId with
  | some vec => (vec.find? fun p => decide (p.1 = toId)).map (fun p => p.2)
  | none => none

/-- `Graph::get_adjacent`: `self.adjacent.get(node_id).unwrap()` then collect
the destinations; the panic of `unwrap()` on a missing entry is `none`. -/
def Graph.get_adjacent {Nid N E : Type}
    (g : Graph Nid N E) (node_id : Nid) : Option (List Nid) :=
  (g.adjacent node_id).map (fun vec => vec.map (fun p => p.1))

/-- `Graph::edges_from`. -/
def Graph.edges_from {Nid N E : Type}
    (g : Graph Nid N E) (node_id : Nid) : Option (List (Nid × E)) :=
  g.adjacent node_id

/-- `Graph::edges_from_to`: all payloads of edges `from → to`; `none` when
`from` has no adjacency sequence at all. -/
def Graph.edges_from_to {Nid N E : Type} [DecidableEq Nid]
    (g : Graph Nid N E) (fromId toId : Nid) : Option (List E) :=
  match g.adjacent fromId with
  | some vec => some ((vec.filter fun p => decide (p.1 = toId)).map (fun p => p.2))
  | none => none

/-- `Graph::edge_count`. -/
def Graph.edge_count {Nid N E : Type} [DecidableEq Nid]
    (g : Graph Nid N E) (fromId toId : Nid) : Nat :=
  match g.adjacent fromId with
  | some vec => (vec.filter fun p => decide (p.1 = toId)).length
  | none => 0

/-- `Graph::contains`. -/
def Graph.contains {Nid N E : Type} (g : Graph Nid N E) (node_id : Nid) : Bool :=
  (g.nodes node_id).isSome

/-- `Graph::push_undirected_edge`: two independent directed edges. -/
def Graph.push_undirected_edge {Nid N E : Type} [DecidableEq Nid]
    (g : Graph Nid N E) (fromId toId : Nid) (edge : E) : Graph Nid N E :=
  (g.add_edge fromId toId edge).add_edge toId fromId edge

/-- `Graph::remove_edge`: if `from` has an adjacency sequence, retain only the
entries whose payload differs from `edge`; otherwise fail. -/
def Graph.remove_edge {Nid N E : Type} [DecidableEq Nid] [DecidableEq E]
    (g : Graph Nid N E) (fromId : Nid) (edge : E) : Except String (Graph Nid N E) :=
  if (g.adjacent fromId).isSome then
    .ok { g with adjacent := fun k =>
      (if k = fromId then
        some (((g.adjacent fromId).getD []).filter fun p => decide (p.2 ≠ edge))
      else g.adjacent k) }
  else .error "Node does not have specified edge!"

/-- `Graph::flip_edge`: if `remove_edge(from, &edge)` succeeds, add the edge
`(to, from, edge)` on the updated state; otherwise fail. -/
def Graph.flip_edge {Nid N E : Type} [DecidableEq Nid] [DecidableEq E]
    (g : Graph Nid N E) (fromId toId : Nid) (edge : E) : Except String (Graph Nid N E) :=
  match g.remove_edge fromId edge with
  | .ok g' => .ok (g'.add_edge toId fromId edge)
  | .error _ => .error "Could not flip the edge, invalid edge or node provided."

/-- A mutating operation of the `Graph` API, for stating invariants over
arbitrary operation sequences. -/
inductive Op (Nid N E : Type) where
  | insertNode (id : Nid) (n : N)
  | addEdge (fromId toId : Nid) (e : E)
  | removeNode (id : Nid)
  | removeEdges (fromId toId : Nid)
  | removeEdge (fromId : Nid) (e : E)
  | pushUndirected (fromId toId : Nid) (e : E)
  | flipEdge (fromId toId : Nid) (e : E)

/-- Run one operation; a `Result::Err` from the Rust methods leaves the
receiver unchanged (the methods return early without mutating). -/
def applyOp {Nid N E : Type} [DecidableEq Nid] [DecidableEq E]
    (g : Graph Nid N E) : Op Nid N E → Graph Nid N E
  | .insertNode id n => (g.insert_node id n).2
  | .addEdge fromId toId e => g.add_edge fromId toId e
  | .removeNode id => (g.remove_node id).2
  | .removeEdges fromId toId =>
    match g.remove_edges fromId toId with
    | .ok g' => g'
    | .error _ => g
  | .removeEdge fromId e =>
    match g.remove_edge fromId e with
    | .ok g' => g'
    | .error _ => g
  | .pushUndirected fromId toId e => g.push_undirected_edge fromId toId e
  | .flipEdge fromId toId e =>
    match g.flip_edge fromId toId e with
    | .ok g' => g'
    | .error _ => g

/-- Run a sequence of operations in order. -/
def applyOps {Nid N E : Type} [DecidableEq Nid] [DecidableEq E]
    (g : Graph Nid N E) (ops : List (Op Nid N E)) : Graph Nid N E :=
  ops.foldl applyOp g

/-! ### Tree lemmas: the stack/deque loops in head-first coordinates -/

theorem sizeList_rev_children_cons {T : Type} (n : Node T) (rest : List (Node T)) :
    sizeList (n.children.reverse ++ rest) < sizeList (n :: rest) := by
  rw [sizeList_append, sizeList_reverse]
  have := Node.size_eq n
  simp only [sizeList]
  omega

theorem sizeList_rest_children {T : Type} (n : Node T) (rest : List (Node T)) :
    sizeList (rest ++ n.children) < sizeList (n :: rest) := by
  rw [sizeList_append]
  have := Node.size_eq n
  simp only [sizeList]
  omega

/-- `dfsLoop` with the stack listed top-first: pop the head, push the children
reversed at the head. -/
def dfsRev {T : Type} : List (Node T) → List T
  | [] => []
  | n :: rest => n.value :: dfsRev (n.children.reverse ++ rest)
termination_by q => sizeList q
decreasing_by
  exact sizeList_rev_children_cons _ _

/-- `bfsLoop` with the deque listed back-first: pop the head (the back), push
the children at the end (the front). -/
def bfsRev {T : Type} : List (Node T) → List T
  | [] => []
  | n :: rest => n.value :: bfsRev (rest ++ n.children)
termination_by q => sizeList q
decreasing_by
  exact sizeList_rest_children _ _

theorem dfsLoop_eq_rev {T : Type} (q : List (Node T)) : dfsLoop q = dfsRev q.reverse :=
  match q with
  | [] => by simp [dfsLoop, dfsRev]
  | h :: t => by
    have hne : (h :: t) ≠ ([] : List (Node T)) := by simp
    have ih := dfsLoop_eq_rev ((h :: t).dropLast ++ ((h :: t).getLast hne).children)
    rw [dfsLoop]
    conv_rhs => rw [← List.dropLast_append_getLast hne]
    rw [List.reverse_append, List.reverse_singleton, List.singleton_append, dfsRev, ih,
      List.reverse_append]
termination_by sizeList q
decreasing_by
  exact sizeList_pop_push _ (by simp)

theorem bfsLoop_eq_rev {T : Type} (q : List (Node T)) : bfsLoop q = bfsRev q.reverse :=
  match q with
  | [] => by simp [bfsLoop, bfsRev]
  | h :: t => by
    have hne : (h :: t) ≠ ([] : List (Node T)) := by simp
    have ih := bfsLoop_eq_rev (((h :: t).getLast hne).children.reverse ++ (h :: t).dropLast)
    rw [bfsLoop]
    conv_rhs => rw [← List.dropLast_append_getLast hne]
    rw [List.reverse_append, List.reverse_singleton, List.singleton_append, bfsRev, ih,
      List.reverse_append, List.reverse_reverse]
termination_by sizeList q
decreasing_by
  exact sizeList_pop_push_front _ (by simp)

theorem containsLoop_iff_mem_dfsLoop {T : Type} [DecidableEq T] (value : T)
    (q : List (Node T)) : containsLoop value q = true ↔ value ∈ dfsLoop q :=
  match q with
  | [] => by simp [containsLoop, dfsLoop]
  | h :: t => by
    have hne : (h :: t) ≠ ([] : List (Node T)) := by simp
    have ih := containsLoop_iff_mem_dfsLoop value
      ((h :: t).dropLast ++ ((h :: t).getLast hne).children)
    rw [containsLoop, dfsLoop]
    by_cases hv : ((h :: t).getLast hne).value = value
    · simp [hv]
    · simp only [hv, if_false, List.mem_cons, ih]
      constructor
      · exact fun hm => Or.inr hm
      · rintro (hm | hm)
        · exact absurd hm.symm hv
        · exact hm
termination_by sizeList q
decreasing_by
  exact sizeList_pop_push _ (by simp)

theorem dfsRev_append {T : Type} (l₁ l₂ : List (Node T)) :
    dfsRev (l₁ ++ l₂) = dfsRev l₁ ++ dfsRev l₂ :=
  match l₁ with
  | [] => by simp [dfsRev]
  | n :: rest => by
    have ih := dfsRev_append (n.children.reverse ++ rest) l₂
    rw [List.cons_append, dfsRev, ← List.append_assoc, ih, dfsRev]
    rfl
termination_by sizeList l₁
decreasing_by
  exact sizeList_rev_children_cons _ _

theorem dfsRev_eq_flat {T : Type} (l : List (Node T)) :
    dfsRev l = (l.map Node.depth_first_vec).flatten := by
  induction l with
  | nil => simp [dfsRev]
  | cons n rest ih =>
    have : (n :: rest) = [n] ++ rest := rfl
    rw [this, dfsRev_append, ih, List.map_append, List.flatten_append]
    congr 1
    simp only [List.map_cons, List.map_nil, List.flatten_cons, List.flatten_nil,
      List.append_nil]
    rw [Node.depth_first_vec, dfsLoop_eq_rev, List.reverse_singleton]

/-! ### The canonical multiset of values of a tree -/

mutual

/-- The values of a tree, parent first then children in stored order (a
reference list used only to compare the two traversals). -/
def Node.toList {T : Type} : Node T → List T
  | .mk v cs => v :: toListAux cs

def toListAux {T : Type} : List (Node T) → List T
  | [] => []
  | c :: cs => Node.toList c ++ toListAux cs

end

theorem toListAux_append {T : Type} (l₁ l₂ : List (Node T)) :
    toListAux (l₁ ++ l₂) = toListAux l₁ ++ toListAux l₂ := by
  induction l₁ with
  | nil => simp [toListAux]
  | cons c cs ih => simp [toListAux, ih]

theorem toListAux_reverse_perm {T : Type} (l : List (Node T)) :
    List.Perm (toListAux l.reverse) (toListAux l) := by
  induction l with
  | nil => exact List.Perm.refl _
  | cons c cs ih =>
    rw [List.reverse_cons, toListAux_append]
    simp only [toListAux, List.append_nil]
    exact (ih.append_right _).trans List.perm_append_comm

theorem dfsRev_perm_toListAux {T : Type} (q : List (Node T)) :
    List.Perm (dfsRev q) (toListAux q) :=
  match q with
  | [] => by simp [dfsRev, toListAux]
  | .mk v cs :: rest => by
    have ih := dfsRev_perm_toListAux ((Node.mk v cs).children.reverse ++ rest)
    rw [dfsRev]
    simp only [Node.value, Node.children] at *
    rw [toListAux_append] at ih
    have step : List.Perm (toListAux cs.reverse ++ toListAux rest)
        (toListAux cs ++ toListAux rest) :=
      (toListAux_reverse_perm cs).append_right _
    have : List.Perm (dfsRev (cs.reverse ++ rest)) (toListAux cs ++ toListAux rest) :=
      ih.trans step
    simpa [toListAux, Node.toList] using this.cons v
termination_by sizeList q
decreasing_by
  exact sizeList_rev_children_cons _ _

theorem bfsRev_perm_toListAux {T : Type} (q : List (Node T)) :
    List.Perm (bfsRev q) (toListAux q) :=
  match q with
  | [] => by simp [bfsRev, toListAux]
  | .mk v cs :: rest => by
    have ih := bfsRev_perm_toListAux (rest ++ (Node.mk v cs).children)
    rw [bfsRev]
    simp only [Node.value, Node.children] at *
    rw [toListAux_append] at ih
    have step : List.Perm (toListAux rest ++ toListAux cs)
        (toListAux cs ++ toListAux rest) := List.perm_append_comm
    have : List.Perm (bfsRev (rest ++ cs)) (toListAux cs ++ toListAux rest) :=
      ih.trans step
    simpa [toListAux, Node.toList] using this.cons v
termination_by sizeList q
decreasing_by
  exact sizeList_rest_children _ _

theorem depth_first_perm_toList {T : Type} (n : Node T) :
    List.Perm n.depth_first_vec n.toList := by
  rw [Node.depth_first_vec, dfsLoop_eq_rev, List.reverse_singleton]
  have := dfsRev_perm_toListAux [n]
  simpa [toListAux] using this

theorem breadth_first_perm_toList {T : Type} (n : Node T) :
    List.Perm n.breadth_first_vec n.toList := by
  rw [Node.breadth_first_vec, bfsLoop_eq_rev, List.reverse_singleton]
  have := bfsRev_perm_toListAux [n]
  simpa [toListAux] using this

/-! ### Graph lemmas -/

theorem add_edge_adj_isSome {Nid N E : Type} [DecidableEq Nid]
    (g : Graph Nid N E) (fromId toId : Nid) (e : E) (id : Nid)
    (h : (g.adjacent id).isSome = true) :
    (((g.add_edge fromId toId e).adjacent id)).isSome = true := by
  simp only [Graph.add_edge]
  split <;> simp [h]

theorem applyOp_adj_isSome {Nid N E : Type} [DecidableEq Nid] [DecidableEq E]
    (g : Graph Nid N E) (op : Op Nid N E) (id : Nid)
    (h : (g.adjacent id).isSome = true) :
    ((applyOp g op).adjacent id).isSome = true := by
  cases op with
  | insertNode i n => simpa [applyOp, Graph.insert_node] using h
  | addEdge f t e => exact add_edge_adj_isSome g f t e id h
  | removeNode i => simpa [applyOp, Graph.remove_node] using h
  | removeEdges f t =>
    by_cases hc : (g.adjacent f).isSome = true
    · simp only [applyOp, Graph.remove_edges, hc, if_true]
      by_cases hif : id = f <;> simp [hif, h]
    · simp only [applyOp, Graph.remove_edges, hc, Bool.false_eq_true, if_false]
      exact h
  | removeEdge f e =>
    by_cases hc : (g.adjacent f).isSome = true
    · simp only [applyOp, Graph.remove_edge, hc, if_true]
      by_cases hif : id = f <;> simp [hif, h]
    · simp only [applyOp, Graph.remove_edge, hc, Bool.false_eq_true, if_false]
      exact h
  | pushUndirected f t e =>
    exact add_edge_adj_isSome _ t f e id (add_edge_adj_isSome g f t e id h)
  | flipEdge f t e =>
    by_cases hc : (g.adjacent f).isSome = true
    · simp only [applyOp, Graph.flip_edge, Graph.remove_edge, hc, if_true]
      apply add_edge_adj_isSome
      by_cases hif : id = f <;> simp [hif, h]
    · simp only [applyOp, Graph.flip_edge, Graph.remove_edge, hc, Bool.false_eq_true,
        if_false]
      exact h

theorem applyOps_adj_isSome {Nid N E : Type} [DecidableEq Nid] [DecidableEq E]
    (g : Graph Nid N E) (ops : List (Op Nid N E)) (id : Nid)
    (h : (g.adjacent id).isSome = true) :
    ((applyOps g ops).adjacent id).isSome = true := by
  induction ops generalizing g with
  | nil => exact h
  | cons op rest ih => exact ih _ (applyOp_adj_isSome g op id h)

/-! ### The specified properties -/

/-- Claim C1: `flip_edge(from, to, e)` removes all adjacency entries of `from`
whose payload equals `e` (regardless of destination), then appends the single
edge `(to, from, e)` to `to`'s adjacency sequence; it returns the error result
exactly when `from` has no adjacency entry at all; on a graph whose only edge
is `(a, b, e)` with `a ≠ b`, `flip_edge(a, b, e)` succeeds and afterwards
`edge_count(&a,&b) == 0` and `edge_count(&b,&a) == 1`. -/
theorem flip_edge_spec {Nid N E : Type} [DecidableEq Nid] [DecidableEq E]
    (g : Graph Nid N E) (fromId toId : Nid) (e : E) :
    ((∃ g', g.flip_edge fromId toId e = .ok g') ↔ (g.adjacent fromId).isSome = true)
    ∧ (∀ l, g.adjacent fromId = some l →
        g.flip_edge fromId toId e =
          .ok (Graph.add_edge
            { g with adjacent := fun k =>
                (if k = fromId then some (l.filter fun p => decide (p.2 ≠ e))
                 else g.adjacent k) } toId fromId e))
    ∧ (g.adjacent fromId = none →
        g.flip_edge fromId toId e =
          .error "Could not flip the edge, invalid edge or node provided.")
    ∧ (∀ (a b : Nid) (e' : E), a ≠ b →
        ∃ g', ((Graph.new : Graph Nid N E).add_edge a b e').flip_edge a b e' = .ok g'
          ∧ g'.edge_count a b = 0 ∧ g'.edge_count b a = 1) := by
  refine ⟨?_, ?_, ?_, ?_⟩
  · by_cases hc : (g.adjacent fromId).isSome = true <;>
      simp [Graph.flip_edge, Graph.remove_edge, hc]
  · intro l hl
    simp [Graph.flip_edge, Graph.remove_edge, hl]
  · intro hn
    simp [Graph.flip_edge, Graph.remove_edge, hn]
  · intro a b e' hab
    have hadj : ((Graph.new : Graph Nid N E).add_edge a b e').adjacent a
        = some [(b, e')] := by simp [Graph.new, Graph.add_edge]
    have hflip : ((Graph.new : Graph Nid N E).add_edge a b e').flip_edge a b e'
        = .ok ((({ (Graph.new : Graph Nid N E).add_edge a b e' with
            adjacent := fun k =>
              (if k = a then some ([(b, e')].filter fun p => decide (p.2 ≠ e'))
               else ((Graph.new : Graph Nid N E).add_edge a b e').adjacent k) }
            : Graph Nid N E)).add_edge b a e') := by
      simp [Graph.flip_edge, Graph.remove_edge, hadj]
    refine ⟨_, hflip, ?_, ?_⟩ <;>
      simp [Graph.add_edge, Graph.edge_count, Graph.new, hab, Ne.symm hab]

/-- Witness for C1: on `Graph::new()` (no adjacency entry for `0`) the flip
fails with the exact message, and on the one-edge graph `0 → 1` with payload
`5` the flip succeeds, the removal step behaves as stated, and the edge counts
come out as claimed. -/
theorem flip_edge_spec_witness :
    ((Graph.new : Graph Nat Nat Nat).flip_edge 0 1 5 =
      .error "Could not flip the edge, invalid edge or node provided.")
    ∧ (((Graph.new : Graph Nat Nat Nat).add_edge 0 1 5).flip_edge 0 1 5 =
        .ok (Graph.add_edge { (Graph.new : Graph Nat Nat Nat).add_edge 0 1 5 with
          adjacent := fun k =>
            (if k = 0 then some ([((1 : Nat), (5 : Nat))].filter fun p => decide (p.2 ≠ 5))
             else ((Graph.new : Graph Nat Nat Nat).add_edge 0 1 5).adjacent k) } 1 0 5))
    ∧ (∃ g', ((Graph.new : Graph Nat Nat Nat).add_edge 0 1 5).flip_edge 0 1 5 = .ok g'
        ∧ g'.edge_count 0 1 = 0 ∧ g'.edge_count 1 0 = 1) :=
  ⟨(flip_edge_spec (Graph.new : Graph Nat Nat Nat) 0 1 5).2.2.1 rfl,
   (flip_edge_spec ((Graph.new : Graph Nat Nat Nat).add_edge 0 1 5) 0 1 5).2.1
     [(1, 5)] rfl,
   (flip_edge_spec (Graph.new : Graph Nat Nat Nat) 0 1 5).2.2.2 0 1 5 (by decide)⟩

/-- Claim C2: `remove_edges(from, &to)` fails iff `from` has no adjacency
entry at all (an existing but empty or non-matching sequence is a successful
no-op); on success it deletes exactly the entries whose destination equals
`to`; after `add_edge(a,b,e1)` and `add_edge(a,c,e2)` with `b ≠ c`,
`remove_edges(a,&b)` succeeds and leaves `edges_from_to(&a,&b) == Some([])`
and `edges_from_to(&a,&c) == Some([&e2])`. -/
theorem remove_edges_spec {Nid N E : Type} [DecidableEq Nid]
    (g : Graph Nid N E) (fromId toId : Nid) :
    ((∃ g', g.remove_edges fromId toId = .ok g') ↔ (g.adjacent fromId).isSome = true)
    ∧ (∀ l, g.adjacent fromId = some l →
        g.remove_edges fromId toId =
          .ok { g with adjacent := fun k =>
              (if k = fromId then some (l.filter fun p => decide (p.1 ≠ toId))
               else g.adjacent k) })
    ∧ (g.adjacent fromId = none →
        g.remove_edges fromId toId = .error "Node does not have any edges!")
    ∧ (∀ (a b c : Nid) (e₁ e₂ : E), b ≠ c →
        ∃ g', (((Graph.new : Graph Nid N E).add_edge a b e₁).add_edge a c e₂).remove_edges a b
            = .ok g'
          ∧ g'.edges_from_to a b = some [] ∧ g'.edges_from_to a c = some [e₂]) := by
  refine ⟨?_, ?_, ?_, ?_⟩
  · by_cases hc : (g.adjacent fromId).isSome = true <;> simp [Graph.remove_edges, hc]
  · intro l hl
    simp [Graph.remove_edges, hl]
  · intro hn
    simp [Graph.remove_edges, hn]
  · intro a b c e₁ e₂ hbc
    have hadj : ((((Graph.new : Graph Nid N E).add_edge a b e₁).add_edge a c e₂)).adjacent a
        = some [(b, e₁), (c, e₂)] := by simp [Graph.new, Graph.add_edge]
    have hrm : ((((Graph.new : Graph Nid N E).add_edge a b e₁).add_edge a c e₂)).remove_edges a b
        = .ok { (((Graph.new : Graph Nid N E).add_edge a b e₁).add_edge a c e₂) with
            adjacent := fun k =>
              (if k = a then some ([(b, e₁), (c, e₂)].filter fun p => decide (p.1 ≠ b))
               else ((((Graph.new : Graph Nid N E).add_edge a b e₁).add_edge a c e₂)).adjacent k) } := by
      simp [Graph.remove_edges, hadj]
    refine ⟨_, hrm, ?_, ?_⟩ <;>
      simp [Graph.edges_from_to, Graph.add_edge, Graph.new, hbc, Ne.symm hbc]

/-- Witness for C2: on `Graph::new()` the removal fails with the exact
message; on the graph with edges `0 → 1` (payload 5) and `0 → 2` (payload 7),
`remove_edges(0, &1)` succeeds, removes exactly the destination-1 entry, and
the two `edges_from_to` queries come out as claimed. -/
theorem remove_edges_spec_witness :
    ((Graph.new : Graph Nat Nat Nat).remove_edges 0 1 =
      .error "Node does not have any edges!")
    ∧ ((((Graph.new : Graph Nat Nat Nat).add_edge 0 1 5).add_edge 0 2 7).remove_edges 0 1 =
        .ok { ((Graph.new : Graph Nat Nat Nat).add_edge 0 1 5).add_edge 0 2 7 with
          adjacent := fun k =>
            (if k = 0 then
              some ([((1 : Nat), (5 : Nat)), (2, 7)].filter fun p => decide (p.1 ≠ 1))
             else (((Graph.new : Graph Nat Nat Nat).add_edge 0 1 5).add_edge 0 2 7).adjacent k) })
    ∧ (∃ g', (((Graph.new : Graph Nat Nat Nat).add_edge 0 1 5).add_edge 0 2 7).remove_edges 0 1
          = .ok g'
        ∧ g'.edges_from_to 0 1 = some [] ∧ g'.edges_from_to 0 2 = some [7]) :=
  ⟨(remove_edges_spec (Graph.new : Graph Nat Nat Nat) 0 1).2.2.1 rfl,
   (remove_edges_spec (((Graph.new : Graph Nat Nat Nat).add_edge 0 1 5).add_edge 0 2 7)
      0 1).2.1 [(1, 5), (2, 7)] rfl,
   (remove_edges_spec (Graph.new : Graph Nat Nat Nat) 0 1).2.2.2 0 1 2 5 7 (by decide)⟩

/-- Claim C3: `depth_first_vec` uses a LIFO frontier seeded with the receiver,
recording each popped node's value and pushing its children in stored order,
so children are visited in reverse of insertion order at each level; for
`Node::new(1).join(Node::new(2)).join(Node::new(3))` it returns `[1,3,2]`. -/
theorem depth_first_lifo_spec :
    (∀ (T : Type) (v : T) (cs : List (Node T)),
      (Node.mk v cs).depth_first_vec = v :: (cs.reverse.map Node.depth_first_vec).flatten)
    ∧ (((Node.new 1).join (Node.new 2)).join (Node.new 3)).depth_first_vec = [1, 3, 2] := by
  constructor
  · intro T v cs
    rw [Node.depth_first_vec, dfsLoop_eq_rev, List.reverse_singleton, dfsRev]
    simp only [Node.value, Node.children, List.append_nil]
    rw [dfsRev_eq_flat]
  · simp [Node.new, Node.join, Node.value, Node.children,
      Node.depth_first_vec, dfsLoop_eq_rev, dfsRev]

/-- Claim C4: `breadth_first_vec` takes the current node from one end of a
double-ended frontier, records its value, and pushes each child onto the
opposite end in stored order — the deque mechanics coincide with plain FIFO
processing of the children (`bfsRev`); for
`Node::new(1).join(Node::new(2)).join(Node::new(3))` it returns `[1,2,3]`. -/
theorem breadth_first_deque_spec :
    (∀ (T : Type) (q : List (Node T)), bfsLoop q = bfsRev q.reverse)
    ∧ (∀ (T : Type) (v : T) (cs : List (Node T)),
        (Node.mk v cs).breadth_first_vec = v :: bfsRev cs)
    ∧ (((Node.new 1).join (Node.new 2)).join (Node.new 3)).breadth_first_vec = [1, 2, 3] := by
  refine ⟨fun T q => bfsLoop_eq_rev q, ?_, ?_⟩
  · intro T v cs
    rw [Node.breadth_first_vec, bfsLoop_eq_rev, List.reverse_singleton, bfsRev]
    simp [Node.value, Node.children]
  · simp [Node.new, Node.join, Node.value, Node.children,
      Node.breadth_first_vec, bfsLoop_eq_rev, bfsRev]

/-- Claim C5: `remove_edge(from, &e)` removes every adjacency entry of `from`
whose payload equals `e`, regardless of destination, and fails exactly when
`from` has no adjacency entry; for distinct `a`, `b`,
`push_undirected_edge(a,b,e)` then `remove_edge(a,&e)` removes only the
`a → b` direction, so `get_edge(&b,&a) == Some(&e)` still holds. -/
theorem remove_edge_spec {Nid N E : Type} [DecidableEq Nid] [DecidableEq E]
    (g : Graph Nid N E) (fromId : Nid) (e : E) :
    ((∃ g', g.remove_edge fromId e = .ok g') ↔ (g.adjacent fromId).isSome = true)
    ∧ (∀ l, g.adjacent fromId = some l →
        g.remove_edge fromId e =
          .ok { g with adjacent := fun k =>
              (if k = fromId then some (l.filter fun p => decide (p.2 ≠ e))
               else g.adjacent k) })
    ∧ (g.adjacent fromId = none →
        g.remove_edge fromId e = .error "Node does not have specified edge!")
    ∧ (∀ (a b : Nid) (e' : E), a ≠ b →
        ∃ g', ((Graph.new : Graph Nid N E).push_undirected_edge a b e').remove_edge a e'
            = .ok g'
          ∧ g'.get_edge b a = some e' ∧ g'.edges_from_to a b = some []) := by
  refine ⟨?_, ?_, ?_, ?_⟩
  · by_cases hc : (g.adjacent fromId).isSome = true <;> simp [Graph.remove_edge, hc]
  · intro l hl
    simp [Graph.remove_edge, hl]
  · intro hn
    simp [Graph.remove_edge, hn]
  · intro a b e' hab
    have hadj : ((Graph.new : Graph Nid N E).push_undirected_edge a b e').adjacent a
        = some [(b, e')] := by
      simp [Graph.new, Graph.add_edge, Graph.push_undirected_edge, hab, Ne.symm hab]
    have hrm : ((Graph.new : Graph Nid N E).push_undirected_edge a b e').remove_edge a e'
        = .ok { (Graph.new : Graph Nid N E).push_undirected_edge a b e' with
            adjacent := fun k =>
              (if k = a then some ([(b, e')].filter fun p => decide (p.2 ≠ e'))
               else ((Graph.new : Graph Nid N E).push_undirected_edge a b e').adjacent k) } := by
      simp [Graph.remove_edge, hadj]
    refine ⟨_, hrm, ?_, ?_⟩ <;>
      simp [Graph.get_edge, Graph.edges_from_to, Graph.push_undirected_edge,
        Graph.add_edge, Graph.new, hab, Ne.symm hab]

/-- Witness for C5: on `Graph::new()` the removal fails with the exact
message; after `push_undirected_edge(0, 1, 5)`, `remove_edge(0, &5)` succeeds,
empties only the `0 → 1` direction, and `get_edge(&1, &0) == Some(&5)`. -/
theorem remove_edge_spec_witness :
    ((Graph.new : Graph Nat Nat Nat).remove_edge 0 5 =
      .error "Node does not have specified edge!")
    ∧ (((Graph.new : Graph Nat Nat Nat).add_edge 0 1 5).remove_edge 0 5 =
        .ok { (Graph.new : Graph Nat Nat Nat).add_edge 0 1 5 with
          adjacent := fun k =>
            (if k = 0 then some ([((1 : Nat), (5 : Nat))].filter fun p => decide (p.2 ≠ 5))
             else ((Graph.new : Graph Nat Nat Nat).add_edge 0 1 5).adjacent k) })
    ∧ (∃ g', ((Graph.new : Graph Nat Nat Nat).push_undirected_edge 0 1 5).remove_edge 0 5
          = .ok g'
        ∧ g'.get_edge 1 0 = some 5 ∧ g'.edges_from_to 0 1 = some []) :=
  ⟨(remove_edge_spec (Graph.new : Graph Nat Nat Nat) 0 5).2.2.1 rfl,
   (remove_edge_spec ((Graph.new : Graph Nat Nat Nat).add_edge 0 1 5) 0 5).2.1
     [(1, 5)] rfl,
   (remove_edge_spec (Graph.new : Graph Nat Nat Nat) 0 5).2.2.2 0 1 5 (by decide)⟩

/-- Claim C6: `contains(v)` is true iff `v` appears among the values returned
by `depth_first_vec()`. -/
theorem contains_iff_mem_depth_first {T : Type} [DecidableEq T] (n : Node T) (v : T) :
    n.contains v = true ↔ v ∈ n.depth_first_vec := by
  rw [Node.contains, Node.depth_first_vec]
  exact containsLoop_iff_mem_dfsLoop v [n]

/-- Claim C7: `get_adjacent(&id)` is a strict lookup: it fails fatally
(modelled as `none`) exactly when `id` has no adjacency entry, and when `id`
has an adjacency entry it returns the destination identifiers of the entries
in stored order. -/
theorem get_adjacent_strict_spec {Nid N E : Type} (g : Graph Nid N E) (id : Nid) :
    (g.get_adjacent id = none ↔ g.edges_from id = none)
    ∧ (∀ l, g.edges_from id = some l → g.get_adjacent id = some (l.map fun p => p.1)) := by
  constructor
  · simp [Graph.get_adjacent, Graph.edges_from]
  · intro l hl
    simp [Graph.get_adjacent, Graph.edges_from] at *
    simp [hl]

/-- Witness for C7: for the one-edge graph `0 → 1` (payload 5),
`get_adjacent(&0)` returns the destination sequence `[1]`. -/
theorem get_adjacent_strict_spec_witness :
    ((Graph.new : Graph Nat Nat Nat).add_edge 0 1 5).get_adjacent 0 = some [1] := by
  have h := (get_adjacent_strict_spec ((Graph.new : Graph Nat Nat Nat).add_edge 0 1 5)
    0).2 [(1, 5)] rfl
  simpa using h

/-- Claim C8: `remove_node(&id)` removes and returns only the node-payload
entry for `id`, leaving the entire adjacency mapping unchanged (no adjacency
entry referencing `id`, as source or destination, is removed). -/
theorem remove_node_frame_spec {Nid N E : Type} [DecidableEq Nid]
    (g : Graph Nid N E) (id : Nid) :
    (g.remove_node id).2.adjacent = g.adjacent
    ∧ (g.remove_node id).1 = g.nodes id
    ∧ (∀ k, (g.remove_node id).2.nodes k = if k = id then none else g.nodes k) :=
  ⟨rfl, rfl, fun _ => rfl⟩

/-- Claim C9: once a source identifier has an adjacency entry, no operation of
the API ever deletes the entry: after any sequence of operations
`edges_from(&id)` keeps returning `Some` and `get_adjacent(&id)` never
panics. -/
theorem adjacency_entry_persistent {Nid N E : Type} [DecidableEq Nid] [DecidableEq E]
    (g : Graph Nid N E) (id : Nid) (ops : List (Op Nid N E))
    (h : (g.edges_from id).isSome = true) :
    ((applyOps g ops).edges_from id).isSome = true
    ∧ ((applyOps g ops).get_adjacent id).isSome = true := by
  have hp := applyOps_adj_isSome g ops id h
  refine ⟨hp, ?_⟩
  simp [Graph.get_adjacent, Option.isSome_map]
  exact hp

/-- Witness for C9: the adjacency entry for `0`, created by
`add_edge(0, 1, 5)`, survives a removal of all its edges, a node removal, a
destination-filtered removal, and an edge flip. -/
theorem adjacency_entry_persistent_witness :
    ((applyOps ((Graph.new : Graph Nat Nat Nat).add_edge 0 1 5)
        [Op.removeEdge 0 5, Op.removeNode 0, Op.removeEdges 0 1,
         Op.flipEdge 0 1 5]).edges_from 0).isSome = true
    ∧ ((applyOps ((Graph.new : Graph Nat Nat Nat).add_edge 0 1 5)
        [Op.removeEdge 0 5, Op.removeNode 0, Op.removeEdges 0 1,
         Op.flipEdge 0 1 5]).get_adjacent 0).isSome = true :=
  adjacency_entry_persistent ((Graph.new : Graph Nat Nat Nat).add_edge 0 1 5) 0
    [Op.removeEdge 0 5, Op.removeNode 0, Op.removeEdges 0 1, Op.flipEdge 0 1 5]
    (by decide)

/-- Claim C10: `depth_first_vec()` and `breadth_first_vec()` return sequences
of the same length that are permutations of each other. -/
theorem traversals_perm {T : Type} (n : Node T) :
    List.Perm n.depth_first_vec n.breadth_first_vec
    ∧ n.depth_first_vec.length = n.breadth_first_vec.length := by
  have hp := (depth_first_perm_toList n).trans (breadth_first_perm_toList n).symm
  exact ⟨hp, hp.length_eq⟩

end RustGraphs
